import Mathlib

/-!
Shallow embedding of `src/biblioteca/biblioteca/biblioteca.py`.

The Python program stores `Livro` rows in one SQLite table
`livros (id INTEGER PRIMARY KEY AUTOINCREMENT, titulo TEXT NOT NULL,
autor TEXT NOT NULL, ano INTEGER, quantidade INTEGER NOT NULL DEFAULT 1)`.
We model the database as a list of rows in rowid (insertion) order together
with the AUTOINCREMENT counter.  Python strings are modelled as `List Char`;
Python integers as `Int` (`Nat` for rowids).

SQLite specifics that the embedding reproduces:
- `ORDER BY titulo COLLATE NOCASE` compares titles after folding the ASCII
  letters A-Z to lower case; we realise the ordering with a deterministic
  stable sort (`List.insertionSort`) on that key, a legitimate refinement of
  the unspecified tie order.
- `LIKE` is case-insensitive on the ASCII letters and interprets `%`
  (any sequence) and `_` (any single character) as wildcards; `buscar`
  interpolates the search term into the pattern unescaped.
- `WHERE id=?` equality is SQL equality: a NULL `id` matches nothing
  (`sqlEq`).
- `UPDATE`/`DELETE` touch every row matching the WHERE clause and report
  the changed-row count (`cur.rowcount`).
-/

namespace Biblioteca

/-- ASCII lower-case folding: SQLite's NOCASE collation and default LIKE
fold only the letters A-Z. -/
def asciiLower (c : Char) : Char :=
if 'A' ≤ c ∧ c ≤ 'Z' then Char.ofNat (c.toNat + 32) else c

/-- Fold a whole string (list of characters) to the NOCASE comparison key. -/
def foldKey (s : List Char) : List Char :=
s.map asciiLower

/-- Lexicographic less-or-equal on character lists, the order used by
`ORDER BY titulo COLLATE NOCASE` after `foldKey` (UTF-8 byte order and
code-point order agree). -/
def lexLe : List Char → List Char → Bool
| [], _ => true
| _ :: _, [] => false
| a :: as, b :: bs => decide (a < b) || (decide (a = b) && lexLe as bs)

/-- The dataclass `Livro` of biblioteca.py: `id` is `Optional[int]`,
`ano` is `Optional[int]`. -/
structure Livro where
mk ::
id : Option Nat
titulo : List Char
autor : List Char
ano : Option Int
quantidade : Int
deriving DecidableEq

/-- The persistent state behind `RepositorioLivros`: the `livros` table rows
in rowid order plus the AUTOINCREMENT counter for the next `id`. -/
structure DBState where
mk ::
rows : List Livro
nextId : Nat
deriving DecidableEq

/-- SQL equality on the `id` column: NULL compares false against
everything (so `UPDATE ... WHERE id=NULL` matches no row). -/
def sqlEq : Option Nat → Option Nat → Bool
| some a, some b => decide (a = b)
| _, _ => false

/-- Ordering used by `ORDER BY titulo COLLATE NOCASE`, as a relation on rows. -/
def titleOrder (a b : Livro) : Prop :=
lexLe (foldKey a.titulo) (foldKey b.titulo) = true

instance : DecidableRel titleOrder :=
fun a b => inferInstanceAs (Decidable (lexLe (foldKey a.titulo) (foldKey b.titulo) = true))

/-- `RepositorioLivros.adicionar`: `INSERT INTO livros (titulo, autor, ano,
quantidade) VALUES (?, ?, ?, ?)` — the incoming `id` is not part of the
INSERT, the row gets the AUTOINCREMENT id, which is written back into the
dataclass (`livro.id = cur.lastrowid`) and returned. -/
def adicionar (livro : Livro) (st : DBState) : Livro × DBState :=
let assigned : Livro :=
  { id := some st.nextId, titulo := livro.titulo, autor := livro.autor,
    ano := livro.ano, quantidade := livro.quantidade }
(assigned, { rows := st.rows ++ [assigned], nextId := st.nextId + 1 })

/-- Effect of `UPDATE livros SET titulo=?, autor=?, ano=?, quantidade=?
WHERE id=?` on one row: a matching row gets all four mutable columns
overwritten (its `id` stays), a non-matching row is untouched. -/
def updRow (livro r : Livro) : Livro :=
if sqlEq r.id livro.id then
  { id := r.id, titulo := livro.titulo, autor := livro.autor,
    ano := livro.ano, quantidade := livro.quantidade }
else r

/-- `RepositorioLivros.atualizar`: runs the UPDATE above over the table and
returns nothing (no error is signalled, matching or not). -/
def atualizar (livro : Livro) (st : DBState) : DBState :=
{ rows := st.rows.map (updRow livro), nextId := st.nextId }

/-- `RepositorioLivros.remover`: `DELETE FROM livros WHERE id=?`, returning
`cur.rowcount > 0`, i.e. whether some row matched. -/
def remover (livro_id : Nat) (st : DBState) : Bool × DBState :=
(st.rows.any (fun r => sqlEq r.id (some livro_id)),
 { rows := st.rows.filter (fun r => !sqlEq r.id (some livro_id)),
   nextId := st.nextId })

/-- `RepositorioLivros.listar_todos`: `SELECT ... ORDER BY titulo COLLATE
NOCASE`. -/
def listar_todos (st : DBState) : List Livro :=
List.insertionSort titleOrder st.rows

/-- SQLite `LIKE` matching (default, ASCII-case-insensitive): `%` matches
any sequence (the rest of the pattern must match some suffix of the
string), `_` any single character, anything else its ASCII case-folded
self.  First argument is the pattern, second the string. -/
def likeMatch : List Char → List Char → Bool
| [], s => s.isEmpty
| p :: ps, s =>
  if p = '%' then s.tails.any (fun s2 => likeMatch ps s2)
  else
    match s with
    | [] => false
    | c :: cs => (decide (p = '_') || decide (asciiLower p = asciiLower c)) && likeMatch ps cs

/-- `RepositorioLivros.buscar`: `SELECT ... WHERE titulo LIKE ? OR autor
LIKE ? ORDER BY titulo COLLATE NOCASE` with the pattern
`f"%⟨termo⟩%"` (the term is interpolated unescaped). -/
def buscar (termo : List Char) (st : DBState) : List Livro :=
let pat : List Char := '%' :: (termo ++ ['%'])
List.insertionSort titleOrder
  (st.rows.filter (fun r => likeMatch pat r.titulo || likeMatch pat r.autor))

/-- `RepositorioLivros.obter_por_id`: `SELECT ... WHERE id=?` with
`fetchone()`, i.e. the first matching row in rowid order, if any. -/
def obter_por_id (livro_id : Nat) (st : DBState) : Option Livro :=
st.rows.find? (fun r => sqlEq r.id (some livro_id))

/-- Outcome of `BibliotecaApp.emprestar` (the messages it prints). -/
inductive EmpRes where
| ok : EmpRes
| notFound : EmpRes
| unavailable : EmpRes
deriving DecidableEq

/-- Outcome of `BibliotecaApp.devolver`. -/
inductive DevRes where
| ok : DevRes
| notFound : DevRes
deriving DecidableEq

/-- `BibliotecaApp.emprestar` after the id has been read: look the row up;
"Livro não encontrado" if absent; "Nenhuma cópia disponível" if
`quantidade <= 0`; otherwise decrement `quantidade` and persist via
`atualizar`. -/
def emprestar (livro_id : Nat) (st : DBState) : EmpRes × DBState :=
match obter_por_id livro_id st with
| none => (EmpRes.notFound, st)
| some livro =>
  if livro.quantidade ≤ 0 then (EmpRes.unavailable, st)
  else
    (EmpRes.ok,
     atualizar { id := livro.id, titulo := livro.titulo, autor := livro.autor,
                 ano := livro.ano, quantidade := livro.quantidade - 1 } st)

/-- `BibliotecaApp.devolver` after the id has been read: look the row up;
"Livro não encontrado" if absent; otherwise increment `quantidade`
(no ceiling) and persist via `atualizar`. -/
def devolver (livro_id : Nat) (st : DBState) : DevRes × DBState :=
match obter_por_id livro_id st with
| none => (DevRes.notFound, st)
| some livro =>
  (DevRes.ok,
   atualizar { id := livro.id, titulo := livro.titulo, autor := livro.autor,
               ano := livro.ano, quantidade := livro.quantidade + 1 } st)

/-- Iterated `devolver` on the same id (for the unbounded-growth part of the
Return claim). -/
def devolverN (livro_id : Nat) : Nat → DBState → DBState
| 0, st => st
| n + 1, st => devolverN livro_id n (devolver livro_id st).2

/-- A term is wildcard-free when it contains neither `%` nor `_`. -/
def noWild (t : List Char) : Bool :=
t.all (fun c => !(decide (c = '%')) && !(decide (c = '_')))

/-- Case-insensitive (ASCII-folded) prefix test, spec side. -/
def isPre : List Char → List Char → Bool
| [], _ => true
| _ :: _, [] => false
| a :: as, b :: bs => decide (a = b) && isPre as bs

/-- Substring test, spec side: some suffix of `s` starts with `t`. -/
def isSub (t : List Char) : List Char → Bool
| [] => t.isEmpty
| c :: cs => isPre t (c :: cs) || isSub t cs

/-- Case-insensitive containment of `t` in `s`, the spec's reading of
"contains term as a substring (matched case-insensitively)". -/
def ciContains (t s : List Char) : Bool :=
isSub (foldKey t) (foldKey s)

/-- Modelled from the spec: `Search(term)` as §8 words it — exactly the rows
whose title or creator contains the term case-insensitively, in ListAll's
order.  Compared against `buscar`, which embeds the source's LIKE query. -/
def searchSpec (termo : List Char) (st : DBState) : List Livro :=
(listar_todos st).filter
  (fun r => ciContains termo r.titulo || ciContains termo r.autor)

/-- Well-formedness the SQLite schema guarantees for every reachable state:
`id` is a primary key (pairwise distinct) and AUTOINCREMENT keeps every
assigned id below the next one.  Preservation is proved below
(`WF_init`, `WF_adicionar`, `WF_atualizar`, `WF_remover`, `WF_emprestar`,
`WF_devolver`). -/
def WF (st : DBState) : Prop :=
st.rows.Pairwise (fun a b => a.id ≠ b.id) ∧
∀ r ∈ st.rows, ∀ i : Nat, r.id = some i → i < st.nextId

/-! ### Helper lemmas -/

theorem sqlEq_some_iff {x : Option Nat} {i : Nat} : sqlEq x (some i) = true ↔ x = some i := by
cases x <;> simp [sqlEq]

theorem sqlEq_none_right (x : Option Nat) : sqlEq x none = false := by
cases x <;> rfl

theorem sqlEq_refl_some {x : Option Nat} {i : Nat} (h : x = some i) : sqlEq x x = true := by
subst h; simp [sqlEq]

theorem updRow_id (livro r : Livro) : (updRow livro r).id = r.id := by
unfold updRow; split <;> rfl

theorem updRow_hit {livro r : Livro} (h : sqlEq r.id livro.id = true) :
    updRow livro r =
      { id := r.id, titulo := livro.titulo, autor := livro.autor,
        ano := livro.ano, quantidade := livro.quantidade } := by
unfold updRow; simp [h]

theorem updRow_skip {livro r : Livro} (h : sqlEq r.id livro.id = false) :
    updRow livro r = r := by
unfold updRow; simp [h]

theorem find?_map_pres (f : Livro → Livro) (p : Livro → Bool)
    (hp : ∀ x, p (f x) = p x) :
    ∀ l : List Livro, (l.map f).find? p = (l.find? p).map f := by
intro l
induction l with
| nil => rfl
| cons a l ih =>
  cases h : p a with
  | true =>
    have hfa : p (f a) = true := by rw [hp a]; exact h
    simp [List.find?_cons_of_pos, h, hfa]
  | false =>
    have hfa : p (f a) = false := by rw [hp a]; exact h
    simp [List.find?_cons_of_neg, h, hfa, ih]

theorem obter_atualizar (i : Nat) (livro : Livro) (st : DBState) :
    obter_por_id i (atualizar livro st) = (obter_por_id i st).map (updRow livro) := by
unfold obter_por_id atualizar
exact find?_map_pres _ _ (fun x => by rw [updRow_id]) st.rows

theorem obter_some_id {i : Nat} {st : DBState} {l : Livro}
    (h : obter_por_id i st = some l) : l.id = some i := by
unfold obter_por_id at h
have hp := List.find?_some h
exact sqlEq_some_iff.mp hp

theorem obter_atualizar_hit (i : Nat) (st : DBState) (l livro : Livro)
    (h : obter_por_id i st = some l) (hid : livro.id = some i) :
    obter_por_id i (atualizar livro st) =
      some { id := l.id, titulo := livro.titulo, autor := livro.autor,
             ano := livro.ano, quantidade := livro.quantidade } := by
rw [obter_atualizar, h]
have hl : l.id = some i := obter_some_id h
have hm : sqlEq l.id livro.id = true := by rw [hl, hid]; simp [sqlEq]
simp [updRow_hit hm]

theorem emprestar_of_pos {i : Nat} {st : DBState} {l : Livro}
    (h : obter_por_id i st = some l) (hq : 0 < l.quantidade) :
    emprestar i st =
      (EmpRes.ok,
       atualizar { id := l.id, titulo := l.titulo, autor := l.autor,
                   ano := l.ano, quantidade := l.quantidade - 1 } st) := by
have hq' : ¬ l.quantidade ≤ 0 := by omega
simp only [emprestar, h, hq', if_false]

theorem devolver_of_some {i : Nat} {st : DBState} {l : Livro}
    (h : obter_por_id i st = some l) :
    devolver i st =
      (DevRes.ok,
       atualizar { id := l.id, titulo := l.titulo, autor := l.autor,
                   ano := l.ano, quantidade := l.quantidade + 1 } st) := by
simp only [devolver, h]

theorem devolverN_grow (i : Nat) :
    ∀ (n : Nat) (st : DBState) (l : Livro), obter_por_id i st = some l →
      obter_por_id i (devolverN i n st) =
        some { id := l.id, titulo := l.titulo, autor := l.autor, ano := l.ano,
               quantidade := l.quantidade + n } := by
intro n
induction n with
| zero =>
  intro st l h
  simpa using h
| succ n ih =>
  intro st l h
  have h1 : obter_por_id i (devolver i st).2 =
      some { id := l.id, titulo := l.titulo, autor := l.autor, ano := l.ano,
             quantidade := l.quantidade + 1 } := by
    rw [devolver_of_some h]
    have hid := obter_some_id h
    exact obter_atualizar_hit i st l
      (⟨l.id, l.titulo, l.autor, l.ano, l.quantidade + 1⟩ : Livro) h hid
  show obter_por_id i (devolverN i n (devolver i st).2) = _
  rw [ih _ _ h1]
  have harith : l.quantidade + 1 + (n : Int) = l.quantidade + ((n + 1 : Nat) : Int) := by
    push_cast; ring
  simp [harith]

theorem map_self_of {f : Livro → Livro} :
    ∀ l : List Livro, (∀ r ∈ l, f r = r) → l.map f = l := by
intro l h
induction l with
| nil => rfl
| cons a t ih =>
  have ha : f a = a := h a (List.mem_cons_self a t)
  have ht : t.map f = t := ih (fun r hr => h r (List.mem_cons_of_mem a hr))
  simp [ha, ht]

/-! ### Claim theorems (first batch) -/

/-- C1: `Borrow(id)` fails with NotFound when no item with that id exists and
fails with Unavailable when `available_count ≤ 0`, in both cases leaving the
whole state unchanged; otherwise it returns Ok, the new state is exactly the
Update (`atualizar`) of the old with the count decremented by one, and the
decremented count is persisted: a lookup afterwards sees it. -/
theorem emprestar_spec (i : Nat) (st : DBState) :
    (obter_por_id i st = none → emprestar i st = (EmpRes.notFound, st)) ∧
    (∀ l, obter_por_id i st = some l → l.quantidade ≤ 0 →
      emprestar i st = (EmpRes.unavailable, st)) ∧
    (∀ l, obter_por_id i st = some l → 0 < l.quantidade →
      emprestar i st =
        (EmpRes.ok,
         atualizar { id := l.id, titulo := l.titulo, autor := l.autor,
                     ano := l.ano, quantidade := l.quantidade - 1 } st) ∧
      obter_por_id i (emprestar i st).2 =
        some { id := l.id, titulo := l.titulo, autor := l.autor,
               ano := l.ano, quantidade := l.quantidade - 1 }) := by
refine ⟨fun h => ?_, fun l h hq => ?_, fun l h hq => ⟨emprestar_of_pos h hq, ?_⟩⟩
· simp only [emprestar, h]
· simp only [emprestar, h, hq, if_true, if_pos]
· rw [emprestar_of_pos h hq]
  have hid := obter_some_id h
  exact obter_atualizar_hit i st l
    (⟨l.id, l.titulo, l.autor, l.ano, l.quantidade - 1⟩ : Livro) h hid

/-- C1 witness: on a one-row store with count 2, borrowing succeeds and the
persisted count drops to 1. -/
theorem emprestar_spec_witness :
    obter_por_id 1 ⟨[⟨some 1, ['b'], ['x'], none, 2⟩], 2⟩ =
      some ⟨some 1, ['b'], ['x'], none, 2⟩ ∧
    obter_por_id 1 (emprestar 1 ⟨[⟨some 1, ['b'], ['x'], none, 2⟩], 2⟩).2 =
      some ⟨some 1, ['b'], ['x'], none, 1⟩ :=
⟨by decide,
 ((emprestar_spec 1 ⟨[⟨some 1, ['b'], ['x'], none, 2⟩], 2⟩).2.2
    ⟨some 1, ['b'], ['x'], none, 2⟩ (by decide) (by decide)).2⟩

/-- C3: `Return(id)` fails with NotFound when no item with that id exists
(state unchanged); otherwise it increments the count by one and persists it
via Update; and there is no ceiling: n repeated returns grow the count by n,
without limit. -/
theorem devolver_spec (i : Nat) (st : DBState) :
    (obter_por_id i st = none → devolver i st = (DevRes.notFound, st)) ∧
    (∀ l, obter_por_id i st = some l →
      devolver i st =
        (DevRes.ok,
         atualizar { id := l.id, titulo := l.titulo, autor := l.autor,
                     ano := l.ano, quantidade := l.quantidade + 1 } st) ∧
      obter_por_id i (devolver i st).2 =
        some { id := l.id, titulo := l.titulo, autor := l.autor,
               ano := l.ano, quantidade := l.quantidade + 1 }) ∧
    (∀ l n, obter_por_id i st = some l →
      obter_por_id i (devolverN i n st) =
        some { id := l.id, titulo := l.titulo, autor := l.autor, ano := l.ano,
               quantidade := l.quantidade + n }) := by
refine ⟨fun h => ?_, fun l h => ⟨devolver_of_some h, ?_⟩, fun l n h => devolverN_grow i n st l h⟩
· simp only [devolver, h]
· rw [devolver_of_some h]
  have hid := obter_some_id h
  exact obter_atualizar_hit i st l
    (⟨l.id, l.titulo, l.autor, l.ano, l.quantidade + 1⟩ : Livro) h hid

/-- C3 witness: returning three times on a one-row store grows the count
from 2 to 5. -/
theorem devolver_spec_witness :
    obter_por_id 1 ⟨[⟨some 1, ['b'], ['x'], none, 2⟩], 2⟩ =
      some ⟨some 1, ['b'], ['x'], none, 2⟩ ∧
    obter_por_id 1 (devolverN 1 3 ⟨[⟨some 1, ['b'], ['x'], none, 2⟩], 2⟩) =
      some ⟨some 1, ['b'], ['x'], none, 5⟩ :=
⟨by decide,
 (devolver_spec 1 ⟨[⟨some 1, ['b'], ['x'], none, 2⟩], 2⟩).2.2
   ⟨some 1, ['b'], ['x'], none, 2⟩ 3 (by decide)⟩

/-- C5: `Delete(id)` returns true exactly when a row with that id existed,
and afterwards `GetByID(id)` returns absent; on a non-existing id it
returns false. -/
theorem remover_spec (i : Nat) (st : DBState) :
    ((remover i st).1 = true ↔ (obter_por_id i st).isSome = true) ∧
    obter_por_id i (remover i st).2 = none := by
constructor
· simp [remover, obter_por_id, List.any_eq_true, List.find?_isSome]
· unfold remover obter_por_id
  rw [List.find?_eq_none]
  intro x hx
  simp only [List.mem_filter] at hx
  simpa using hx.2

/-- C7: on an existing item with positive count, Borrow then Return on the
same id restores the item exactly — in particular its `available_count` —
to its original value. -/
theorem borrow_return_spec (i : Nat) (st : DBState) :
    ∀ l, obter_por_id i st = some l → 0 < l.quantidade →
      obter_por_id i (devolver i (emprestar i st).2).2 = some l := by
intro l h hq
have hid : l.id = some i := obter_some_id h
rw [emprestar_of_pos h hq]
have h1 : obter_por_id i
    (atualizar { id := l.id, titulo := l.titulo, autor := l.autor,
                 ano := l.ano, quantidade := l.quantidade - 1 } st) =
    some { id := l.id, titulo := l.titulo, autor := l.autor,
           ano := l.ano, quantidade := l.quantidade - 1 } :=
  obter_atualizar_hit i st l
    (⟨l.id, l.titulo, l.autor, l.ano, l.quantidade - 1⟩ : Livro) h hid
rw [devolver_of_some h1]
have h2 := obter_atualizar_hit i
  (atualizar (⟨l.id, l.titulo, l.autor, l.ano, l.quantidade - 1⟩ : Livro) st)
  (⟨l.id, l.titulo, l.autor, l.ano, l.quantidade - 1⟩ : Livro)
  (⟨l.id, l.titulo, l.autor, l.ano, l.quantidade - 1 + 1⟩ : Livro)
  h1 hid
have heq : (⟨l.id, l.titulo, l.autor, l.ano, l.quantidade - 1 + 1⟩ : Livro) = l := by
  have harith : l.quantidade - 1 + 1 = l.quantidade := by ring
  rw [harith]
exact h2.trans (congrArg some heq)

/-- C7 witness: borrow then return on a count-2 item gives back the
original row. -/
theorem borrow_return_spec_witness :
    obter_por_id 1 ⟨[⟨some 1, ['b'], ['x'], none, 2⟩], 2⟩ =
      some ⟨some 1, ['b'], ['x'], none, 2⟩ ∧
    obter_por_id 1 (devolver 1 (emprestar 1 ⟨[⟨some 1, ['b'], ['x'], none, 2⟩], 2⟩).2).2 =
      some ⟨some 1, ['b'], ['x'], none, 2⟩ :=
⟨by decide,
 borrow_return_spec 1 ⟨[⟨some 1, ['b'], ['x'], none, 2⟩], 2⟩
   ⟨some 1, ['b'], ['x'], none, 2⟩ (by decide) (by decide)⟩

/-- C8: Update overwrites all four mutable columns of every row matching
`item.id` (the id column stays); when no row matches — in particular when
`item.id` is NULL — it is a no-op leaving the state unchanged, and it
signals nothing to the caller (`atualizar` returns only the state; there is
no error path). -/
theorem atualizar_spec (livro : Livro) (st : DBState) :
    ((∀ r ∈ st.rows, sqlEq r.id livro.id = false) → atualizar livro st = st) ∧
    (livro.id = none → atualizar livro st = st) ∧
    (atualizar livro st).rows.length = st.rows.length ∧
    (atualizar livro st).nextId = st.nextId ∧
    (∀ (j : Nat) (r : Livro), st.rows[j]? = some r → sqlEq r.id livro.id = true →
      (atualizar livro st).rows[j]? =
        some { id := r.id, titulo := livro.titulo, autor := livro.autor,
               ano := livro.ano, quantidade := livro.quantidade }) := by
refine ⟨fun h => ?_, fun h => ?_, by simp [atualizar], rfl, fun j r hj hr => ?_⟩
· have hmap : st.rows.map (updRow livro) = st.rows :=
    map_self_of st.rows (fun r hr => updRow_skip (h r hr))
  unfold atualizar
  rw [hmap]
· have hmap : st.rows.map (updRow livro) = st.rows := by
    refine map_self_of st.rows (fun r _ => updRow_skip ?_)
    rw [h]
    exact sqlEq_none_right r.id
  unfold atualizar
  rw [hmap]
· unfold atualizar
  simp only [List.getElem?_map, hj, Option.map_some']
  rw [updRow_hit hr]

/-- C8 witness: updating id 1 overwrites its mutable fields, and an update
whose id matches nothing (id 9, and a NULL id) leaves the state unchanged. -/
theorem atualizar_spec_witness :
    atualizar ⟨some 9, ['n'], ['n'], none, 7⟩ ⟨[⟨some 1, ['b'], ['x'], none, 2⟩], 2⟩ =
      ⟨[⟨some 1, ['b'], ['x'], none, 2⟩], 2⟩ ∧
    (atualizar ⟨some 1, ['n'], ['m'], some 3, 7⟩ ⟨[⟨some 1, ['b'], ['x'], none, 2⟩], 2⟩).rows[0]? =
      some ⟨some 1, ['n'], ['m'], some 3, 7⟩ :=
⟨(atualizar_spec ⟨some 9, ['n'], ['n'], none, 7⟩ ⟨[⟨some 1, ['b'], ['x'], none, 2⟩], 2⟩).1
   (by decide),
 (atualizar_spec ⟨some 1, ['n'], ['m'], some 3, 7⟩ ⟨[⟨some 1, ['b'], ['x'], none, 2⟩], 2⟩).2.2.2.2
   0 ⟨some 1, ['b'], ['x'], none, 2⟩ (by decide) (by decide)⟩

/-- C10: Update leaves every stored row whose id differs from `item.id`
completely unchanged (frame property of `atualizar`). -/
theorem atualizar_frame (livro : Livro) (st : DBState) :
    ∀ (j : Nat) (r : Livro), st.rows[j]? = some r → sqlEq r.id livro.id = false →
      (atualizar livro st).rows[j]? = some r := by
intro j r hj hr
unfold atualizar
simp only [List.getElem?_map, hj, Option.map_some']
rw [updRow_skip hr]

/-- C10 witness: updating id 9 leaves the row with id 1 in place. -/
theorem atualizar_frame_witness :
    (atualizar ⟨some 9, ['n'], ['n'], none, 7⟩ ⟨[⟨some 1, ['b'], ['x'], none, 2⟩], 2⟩).rows[0]? =
      some ⟨some 1, ['b'], ['x'], none, 2⟩ :=
atualizar_frame ⟨some 9, ['n'], ['n'], none, 7⟩ ⟨[⟨some 1, ['b'], ['x'], none, 2⟩], 2⟩
  0 ⟨some 1, ['b'], ['x'], none, 2⟩ (by decide) (by decide)

/-! ### Ordering lemmas for the NOCASE sort -/

theorem lexLe_total : ∀ a b : List Char, lexLe a b = true ∨ lexLe b a = true := by
intro a
induction a with
| nil => intro b; left; rfl
| cons x xs ih =>
  intro b
  cases b with
  | nil => right; rfl
  | cons y ys =>
    rcases lt_trichotomy x y with hxy | hxy | hxy
    · left; simp [lexLe, hxy]
    · subst hxy
      rcases ih ys with h | h
      · left; simp [lexLe, h]
      · right; simp [lexLe, h]
    · right; simp [lexLe, hxy]

theorem lexLe_trans :
    ∀ a b c : List Char, lexLe a b = true → lexLe b c = true → lexLe a c = true := by
intro a
induction a with
| nil => intro b c _ _; rfl
| cons x xs ih =>
  intro b c h1 h2
  cases b with
  | nil => simp [lexLe] at h1
  | cons y ys =>
    cases c with
    | nil => simp [lexLe] at h2
    | cons z zs =>
      simp only [lexLe, Bool.or_eq_true, Bool.and_eq_true, decide_eq_true_eq] at h1 h2 ⊢
      rcases h1 with h1 | ⟨h1e, h1r⟩
      · rcases h2 with h2 | ⟨h2e, h2r⟩
        · exact Or.inl (lt_trans h1 h2)
        · exact Or.inl (h2e ▸ h1)
      · rcases h2 with h2 | ⟨h2e, h2r⟩
        · exact Or.inl (h1e ▸ h2)
        · exact Or.inr ⟨h1e.trans h2e, ih ys zs h1r h2r⟩

instance : IsTotal Livro titleOrder :=
⟨fun a b => lexLe_total (foldKey a.titulo) (foldKey b.titulo)⟩

instance : IsTrans Livro titleOrder :=
⟨fun a b c => lexLe_trans (foldKey a.titulo) (foldKey b.titulo) (foldKey c.titulo)⟩

theorem orderedInsert_of_forall {α : Type} {r : α → α → Prop} [DecidableRel r] {x : α} :
    ∀ {M : List α}, (∀ w ∈ M, r x w) → List.orderedInsert r x M = x :: M := by
intro M h
cases M with
| nil => rfl
| cons b l => exact if_pos (h b (List.mem_cons_self b l))

theorem filter_orderedInsert {α : Type} {r : α → α → Prop} [DecidableRel r] [IsTrans α r]
    (p : α → Bool) (x : α) :
    ∀ M : List α, M.Pairwise r →
      (List.orderedInsert r x M).filter p =
        if p x then List.orderedInsert r x (M.filter p) else M.filter p := by
intro M
induction M with
| nil =>
  intro _
  cases hp : p x <;> simp [List.orderedInsert, hp]
| cons y M ih =>
  intro hPair
  have hy : ∀ w ∈ M, r y w := (List.pairwise_cons.mp hPair).1
  have hM : M.Pairwise r := (List.pairwise_cons.mp hPair).2
  by_cases hxy : r x y
  · rw [List.orderedInsert, if_pos hxy]
    cases hp : p x with
    | false => simp [List.filter_cons, hp]
    | true =>
      cases hpy : p y with
      | true => simp [List.filter_cons, hp, hpy, List.orderedInsert, hxy]
      | false =>
        have hall : ∀ w ∈ M.filter p, r x w := fun w hw =>
          IsTrans.trans x y w hxy (hy w (List.mem_of_mem_filter hw))
        simp [List.filter_cons, hp, hpy, orderedInsert_of_forall hall]
  · rw [List.orderedInsert, if_neg hxy]
    cases hp : p x with
    | true =>
      cases hpy : p y with
      | true => simp [List.filter_cons, hp, hpy, List.orderedInsert, hxy, ih hM]
      | false => simp [List.filter_cons, hp, hpy, ih hM]
    | false =>
      cases hpy : p y with
      | true => simp [List.filter_cons, hp, hpy, ih hM]
      | false => simp [List.filter_cons, hp, hpy, ih hM]

theorem filter_insertionSort {α : Type} {r : α → α → Prop} [DecidableRel r]
    [IsTotal α r] [IsTrans α r] (p : α → Bool) :
    ∀ l : List α, (List.insertionSort r l).filter p = List.insertionSort r (l.filter p) := by
intro l
induction l with
| nil => rfl
| cons a l ih =>
  rw [List.insertionSort,
      filter_orderedInsert p a (List.insertionSort r l) (List.sorted_insertionSort r l)]
  cases hp : p a with
  | true => simp [List.filter_cons, hp, List.insertionSort, ih]
  | false => simp [List.filter_cons, hp, List.insertionSort, ih]

/-! ### LIKE versus substring -/

theorem isPre_nil (t : List Char) : isPre t [] = t.isEmpty := by
cases t <;> rfl

theorem isSub_nil_left : ∀ s : List Char, isSub [] s = true := by
intro s
cases s <;> simp [isSub, isPre]

theorem likeMatch_tail_pct (t : List Char) (ht : ∀ c ∈ t, c ≠ '%' ∧ c ≠ '_') :
    ∀ s : List Char, likeMatch (t ++ ['%']) s = isPre (foldKey t) (foldKey s) := by
induction t with
| nil =>
  intro s
  induction s with
  | nil => rfl
  | cons c cs ihs =>
    simp only [List.nil_append, likeMatch, if_pos, List.tails] at ihs ⊢
    simp only [List.any_cons] at ihs ⊢
    simp [isPre, ihs]
| cons a t iht =>
  intro s
  have ha : a ≠ '%' ∧ a ≠ '_' := ht a (List.mem_cons_self a t)
  have ht' : ∀ c ∈ t, c ≠ '%' ∧ c ≠ '_' := fun c hc => ht c (List.mem_cons_of_mem a hc)
  cases s with
  | nil => simp [likeMatch, ha.1, foldKey, isPre]
  | cons c cs =>
    simp [likeMatch, ha.1, ha.2, foldKey, isPre, iht ht' cs]

theorem likeMatch_pct_pct (t : List Char) (ht : ∀ c ∈ t, c ≠ '%' ∧ c ≠ '_') :
    ∀ s : List Char, likeMatch ('%' :: (t ++ ['%'])) s = isSub (foldKey t) (foldKey s) := by
intro s
induction s with
| nil =>
  simp only [likeMatch, if_pos, List.tails, List.any_cons, List.any_nil]
  simp [likeMatch_tail_pct t ht [], isPre_nil, isSub, foldKey]
| cons c cs ihs =>
  simp only [likeMatch, if_pos, List.tails_cons, List.any_cons] at ihs ⊢
  rw [likeMatch_tail_pct t ht (c :: cs)]
  simp [isSub, foldKey, ihs]

theorem noWild_spec {t : List Char} (h : noWild t = true) :
    ∀ c ∈ t, c ≠ '%' ∧ c ≠ '_' := by
intro c hc
have := List.all_eq_true.mp h c hc
simpa using this

/-- C6: ListAll returns all stored items (a permutation of the table),
sorted case-insensitively by title, and Search with the empty term returns
the same sorted sequence. -/
theorem listar_todos_spec (st : DBState) :
    (listar_todos st).Perm st.rows ∧
    List.Sorted titleOrder (listar_todos st) ∧
    buscar [] st = listar_todos st := by
refine ⟨List.perm_insertionSort titleOrder st.rows,
        List.sorted_insertionSort titleOrder st.rows, ?_⟩
unfold buscar listar_todos
have hall : ∀ r : Livro,
    (likeMatch ('%' :: ([] ++ ['%'])) r.titulo || likeMatch ('%' :: ([] ++ ['%'])) r.autor) = true := by
  intro r
  rw [likeMatch_pct_pct [] (by simp) r.titulo, likeMatch_pct_pct [] (by simp) r.autor]
  simp [isSub_nil_left, foldKey]
have hfil : st.rows.filter
    (fun r => likeMatch ('%' :: ([] ++ ['%'])) r.titulo || likeMatch ('%' :: ([] ++ ['%'])) r.autor) =
    st.rows := by
  rw [List.filter_eq_self]
  intro r _
  exact hall r
show List.insertionSort titleOrder
    (st.rows.filter
      (fun r => likeMatch ('%' :: ([] ++ ['%'])) r.titulo ||
                likeMatch ('%' :: ([] ++ ['%'])) r.autor)) =
  List.insertionSort titleOrder st.rows
rw [hfil]

/-- C2 counterexample: the term consisting of the single character `%` is
passed into the LIKE pattern unescaped, so it matches every row; on a store
whose one row is titled "abc" (creator "x"), Search("%") returns that row
although neither field contains a `%`, so the result differs from the
spec's substring filter. -/
theorem buscar_ce :
    buscar ['%'] ⟨[⟨some 1, ['a', 'b', 'c'], ['x'], none, 1⟩], 2⟩ ≠
      searchSpec ['%'] ⟨[⟨some 1, ['a', 'b', 'c'], ['x'], none, 1⟩], 2⟩ := by
decide

/-- C2 (amended): for every search term free of the LIKE wildcards `%` and
`_`, Search(term) returns exactly those items whose title or creator
contains the term as a substring (matched ASCII-case-insensitively), and in
the same case-insensitive title ordering as ListAll: it equals ListAll
filtered by the containment predicate. -/
theorem buscar_spec (termo : List Char) (st : DBState) (h : noWild termo = true) :
    buscar termo st = searchSpec termo st := by
have ht := noWild_spec h
unfold buscar searchSpec listar_todos
rw [filter_insertionSort]
show List.insertionSort titleOrder
    (st.rows.filter
      (fun r => likeMatch ('%' :: (termo ++ ['%'])) r.titulo ||
                likeMatch ('%' :: (termo ++ ['%'])) r.autor)) =
  List.insertionSort titleOrder
    (st.rows.filter (fun r => ciContains termo r.titulo || ciContains termo r.autor))
have hfil : st.rows.filter
    (fun r => likeMatch ('%' :: (termo ++ ['%'])) r.titulo ||
              likeMatch ('%' :: (termo ++ ['%'])) r.autor) =
    st.rows.filter (fun r => ciContains termo r.titulo || ciContains termo r.autor) := by
  apply List.filter_congr
  intro r _
  rw [likeMatch_pct_pct termo ht r.titulo, likeMatch_pct_pct termo ht r.autor]
  rfl
rw [hfil]

/-- C2 witness: on a two-row store, searching the wildcard-free term "b"
agrees with the spec-side substring filter. -/
theorem buscar_spec_witness :
    noWild ['b'] = true ∧
    buscar ['b'] ⟨[⟨some 1, ['a', 'b', 'c'], ['x'], none, 1⟩,
                   ⟨some 2, ['z'], ['q'], none, 1⟩], 3⟩ =
      searchSpec ['b'] ⟨[⟨some 1, ['a', 'b', 'c'], ['x'], none, 1⟩,
                         ⟨some 2, ['z'], ['q'], none, 1⟩], 3⟩ :=
⟨by decide,
 buscar_spec ['b'] ⟨[⟨some 1, ['a', 'b', 'c'], ['x'], none, 1⟩,
                     ⟨some 2, ['z'], ['q'], none, 1⟩], 3⟩ (by decide)⟩

/-! ### Freshness, uniqueness and the remaining claims -/

theorem sqlEq_ne {x : Option Nat} {i : Nat} (h : x ≠ some i) :
    sqlEq x (some i) = false := by
cases hb : sqlEq x (some i)
· rfl
· exact absurd (sqlEq_some_iff.mp hb) h

/-- C4: Create ignores any id already set on the incoming item, assigns the
fresh AUTOINCREMENT id (fresh because every stored id is below `nextId`),
and GetByID on that fresh id immediately afterwards returns an item equal
to the created one in every field except the freshly assigned id. -/
theorem adicionar_spec (livro : Livro) (st : DBState)
    (h : ∀ r ∈ st.rows, ∀ i : Nat, r.id = some i → i < st.nextId) :
    (∀ j : Option Nat,
      adicionar ⟨j, livro.titulo, livro.autor, livro.ano, livro.quantidade⟩ st =
        adicionar livro st) ∧
    (adicionar livro st).1 =
      ⟨some st.nextId, livro.titulo, livro.autor, livro.ano, livro.quantidade⟩ ∧
    (∀ r ∈ st.rows, r.id ≠ some st.nextId) ∧
    obter_por_id st.nextId (adicionar livro st).2 =
      some ⟨some st.nextId, livro.titulo, livro.autor, livro.ano, livro.quantidade⟩ := by
have hfresh : ∀ r ∈ st.rows, r.id ≠ some st.nextId := by
  intro r hr heq
  exact absurd (h r hr st.nextId heq) (lt_irrefl st.nextId)
refine ⟨fun j => rfl, rfl, hfresh, ?_⟩
show (st.rows ++
    [(⟨some st.nextId, livro.titulo, livro.autor, livro.ano, livro.quantidade⟩ : Livro)]).find?
      (fun r => sqlEq r.id (some st.nextId)) =
  some ⟨some st.nextId, livro.titulo, livro.autor, livro.ano, livro.quantidade⟩
rw [List.find?_append]
have h1 : st.rows.find? (fun r => sqlEq r.id (some st.nextId)) = none := by
  rw [List.find?_eq_none]
  intro r hr
  rw [sqlEq_ne (hfresh r hr)]
  simp
rw [h1]
have h2 : ([(⟨some st.nextId, livro.titulo, livro.autor, livro.ano, livro.quantidade⟩ :
    Livro)]).find? (fun r => sqlEq r.id (some st.nextId)) =
    some ⟨some st.nextId, livro.titulo, livro.autor, livro.ano, livro.quantidade⟩ := by
  apply List.find?_cons_of_pos
  simp [sqlEq]
rw [h2]
rfl

/-- C4 witness: creating on a one-row store assigns id 2 even though the
incoming item carried id 9, and GetByID(2) returns it with the other
fields intact. -/
theorem adicionar_spec_witness :
    (adicionar ⟨some 9, ['n'], ['m'], some 3, 4⟩ ⟨[⟨some 1, ['b'], ['x'], none, 2⟩], 2⟩).1 =
      ⟨some 2, ['n'], ['m'], some 3, 4⟩ ∧
    obter_por_id 2
      (adicionar ⟨some 9, ['n'], ['m'], some 3, 4⟩ ⟨[⟨some 1, ['b'], ['x'], none, 2⟩], 2⟩).2 =
      some ⟨some 2, ['n'], ['m'], some 3, 4⟩ :=
⟨(adicionar_spec ⟨some 9, ['n'], ['m'], some 3, 4⟩ ⟨[⟨some 1, ['b'], ['x'], none, 2⟩], 2⟩
    (by decide)).2.1,
 (adicionar_spec ⟨some 9, ['n'], ['m'], some 3, 4⟩ ⟨[⟨some 1, ['b'], ['x'], none, 2⟩], 2⟩
    (by decide)).2.2.2⟩

theorem uniq_row {st : DBState} {i : Nat} {l r : Livro} {j : Nat}
    (hU : st.rows.Pairwise (fun a b => a.id ≠ b.id))
    (hf : obter_por_id i st = some l) (hj : st.rows[j]? = some r)
    (hr : r.id = some i) : r = l := by
have hl_mem : l ∈ st.rows := by
  unfold obter_por_id at hf
  exact List.mem_of_find?_eq_some hf
have hlid : l.id = some i := obter_some_id hf
obtain ⟨k, hk⟩ := List.mem_iff_getElem?.mp hl_mem
obtain ⟨hjlt, hjval⟩ := List.getElem?_eq_some_iff.mp hj
obtain ⟨hklt, hkval⟩ := List.getElem?_eq_some_iff.mp hk
have hpg := List.pairwise_iff_getElem.mp hU
rcases Nat.lt_trichotomy j k with hlt | heq | hgt
· have hne := hpg j k hjlt hklt hlt
  rw [hjval, hkval] at hne
  exact absurd (hr.trans hlid.symm) hne
· subst heq
  exact hjval.symm.trans hkval
· have hne := hpg k j hklt hjlt hgt
  rw [hjval, hkval] at hne
  exact absurd (hlid.trans hr.symm) hne

/-- C9: when Borrow or Return succeeds on id `i`, only the matching item's
`available_count` changes — its id, title, creator and year are kept, and
every row at any other position (distinct id, by the primary-key
uniqueness of reachable states) is completely unchanged. -/
theorem stock_frame (i : Nat) (st : DBState)
    (hU : st.rows.Pairwise (fun a b => a.id ≠ b.id)) :
    (∀ l, obter_por_id i st = some l → 0 < l.quantidade →
      ((emprestar i st).2.rows.length = st.rows.length ∧
       ∀ (j : Nat) (r : Livro), st.rows[j]? = some r →
         ((r.id ≠ some i → (emprestar i st).2.rows[j]? = some r) ∧
          (r.id = some i → (emprestar i st).2.rows[j]? =
             some ⟨r.id, r.titulo, r.autor, r.ano, r.quantidade - 1⟩)))) ∧
    (∀ l, obter_por_id i st = some l →
      ((devolver i st).2.rows.length = st.rows.length ∧
       ∀ (j : Nat) (r : Livro), st.rows[j]? = some r →
         ((r.id ≠ some i → (devolver i st).2.rows[j]? = some r) ∧
          (r.id = some i → (devolver i st).2.rows[j]? =
             some ⟨r.id, r.titulo, r.autor, r.ano, r.quantidade + 1⟩)))) := by
constructor
· intro l h hq
  have hid := obter_some_id h
  rw [emprestar_of_pos h hq]
  refine ⟨by simp [atualizar], fun j r hj => ⟨fun hne => ?_, fun hmatch => ?_⟩⟩
  · unfold atualizar
    simp only [List.getElem?_map, hj, Option.map_some']
    refine congrArg some ?_
    simp [updRow, hid, sqlEq_ne hne]
  · have hreq : r = l := uniq_row hU h hj hmatch
    subst hreq
    unfold atualizar
    simp only [List.getElem?_map, hj, Option.map_some']
    refine congrArg some ?_
    simp [updRow, hid, sqlEq]
· intro l h
  have hid := obter_some_id h
  rw [devolver_of_some h]
  refine ⟨by simp [atualizar], fun j r hj => ⟨fun hne => ?_, fun hmatch => ?_⟩⟩
  · unfold atualizar
    simp only [List.getElem?_map, hj, Option.map_some']
    refine congrArg some ?_
    simp [updRow, hid, sqlEq_ne hne]
  · have hreq : r = l := uniq_row hU h hj hmatch
    subst hreq
    unfold atualizar
    simp only [List.getElem?_map, hj, Option.map_some']
    refine congrArg some ?_
    simp [updRow, hid, sqlEq]

/-- C9 witness: on a two-row store, borrowing id 1 decrements only row 1 and
leaves row 2 untouched. -/
theorem stock_frame_witness :
    (emprestar 1 ⟨[⟨some 1, ['b'], ['x'], none, 2⟩, ⟨some 2, ['z'], ['q'], none, 7⟩], 3⟩).2.rows[1]? =
      some ⟨some 2, ['z'], ['q'], none, 7⟩ ∧
    (emprestar 1 ⟨[⟨some 1, ['b'], ['x'], none, 2⟩, ⟨some 2, ['z'], ['q'], none, 7⟩], 3⟩).2.rows[0]? =
      some ⟨some 1, ['b'], ['x'], none, 1⟩ := by
have h := (stock_frame 1
    ⟨[⟨some 1, ['b'], ['x'], none, 2⟩, ⟨some 2, ['z'], ['q'], none, 7⟩], 3⟩ (by decide)).1
    ⟨some 1, ['b'], ['x'], none, 2⟩ (by decide) (by decide)
exact ⟨(h.2 1 ⟨some 2, ['z'], ['q'], none, 7⟩ (by decide)).1 (by decide),
       (h.2 0 ⟨some 1, ['b'], ['x'], none, 2⟩ (by decide)).2 (by decide)⟩

/-! ### Preservation of the schema invariant (supporting results) -/

theorem WF_init : WF ⟨[], 1⟩ := by
constructor
· simp
· intro r hr
  simp at hr

theorem WF_adicionar (livro : Livro) (st : DBState) (h : WF st) :
    WF (adicionar livro st).2 := by
obtain ⟨hU, hB⟩ := h
show WF ⟨st.rows ++
  [(⟨some st.nextId, livro.titulo, livro.autor, livro.ano, livro.quantidade⟩ : Livro)],
  st.nextId + 1⟩
constructor
· rw [List.pairwise_append]
  refine ⟨hU, by simp, ?_⟩
  intro a ha b hb
  simp only [List.mem_singleton] at hb
  subst hb
  intro heq
  exact absurd (hB a ha st.nextId heq) (lt_irrefl st.nextId)
· intro r hr i hri
  rcases List.mem_append.mp hr with h1 | h1
  · exact Nat.lt_succ_of_lt (hB r h1 i hri)
  · simp only [List.mem_singleton] at h1
    subst h1
    have hin : some st.nextId = some i := hri
    have hieq : i = st.nextId := (Option.some.inj hin).symm
    show i < st.nextId + 1
    omega

theorem WF_atualizar (livro : Livro) (st : DBState) (h : WF st) :
    WF (atualizar livro st) := by
obtain ⟨hU, hB⟩ := h
constructor
· show (st.rows.map (updRow livro)).Pairwise (fun a b => a.id ≠ b.id)
  rw [List.pairwise_map]
  exact List.Pairwise.imp (fun hab => by rw [updRow_id, updRow_id]; exact hab) hU
· intro r hr i hri
  obtain ⟨a, ha, rfl⟩ := List.mem_map.mp hr
  rw [updRow_id] at hri
  exact hB a ha i hri

theorem WF_remover (i : Nat) (st : DBState) (h : WF st) : WF (remover i st).2 := by
obtain ⟨hU, hB⟩ := h
constructor
· exact hU.filter _
· intro r hr j hrj
  exact hB r (List.mem_of_mem_filter hr) j hrj

theorem WF_emprestar (i : Nat) (st : DBState) (h : WF st) : WF (emprestar i st).2 := by
cases ho : obter_por_id i st with
| none =>
  simp only [emprestar, ho]
  exact h
| some l =>
  by_cases hq : l.quantidade ≤ 0
  · simp only [emprestar, ho, if_pos hq]
    exact h
  · simp only [emprestar, ho, if_neg hq]
    exact WF_atualizar _ _ h

theorem WF_devolver (i : Nat) (st : DBState) (h : WF st) : WF (devolver i st).2 := by
cases ho : obter_por_id i st with
| none =>
  simp only [devolver, ho]
  exact h
| some l =>
  simp only [devolver, ho]
  exact WF_atualizar _ _ h

end Biblioteca
